import Mathlib

/-!
Shallow embedding of the event-tracking dashboard in `src/app/page.tsx`:
the event record, the date-fns helpers the page uses, the merge-and-sort
stage, the daily/weekly/monthly bucketing filters, the startup fetch, and
the personal-task create/delete actions together with their localStorage
writes.

Dates are modelled in a fixed-offset timezone without DST: an instant is
an integer count of milliseconds, and an ISO `yyyy-MM-dd` string parses
(via date-fns `parseISO`) to the instant `daysOfDate d * dayLen`, the
local midnight of that calendar day.  The value of `new Date()` at render
time is modelled as a calendar date plus a time-of-day offset `t` with
`0 ≤ t < dayLen` (see `nowInstant`).
-/

/-- A calendar date: the parsed form of an ISO `yyyy-MM-dd` string. -/
structure CalDate where
  year : Int
  month : Int
  day : Int
deriving DecidableEq, Repr

/-- The closed set of event categories (the `type` field of `EvalEvent`
in `page.tsx`). -/
inductive EvalType where
  | Quiz
  | Midsem
  | Lab
  | Deadline
  | Compre
  | Personal
deriving DecidableEq, Repr

/-- The `EvalEvent` record of `page.tsx`.  The TypeScript union
`id: string | number` becomes `Int ⊕ String`; optional fields become
`Option`; the `event_date` string is kept in parsed form. -/
structure EvalEvent where
  id : Int ⊕ String
  title : String
  event_date : CalDate
  time_range : Option String
  description : Option String
  type : EvalType
  isPersonal : Option Bool
deriving DecidableEq, Repr

/-- Milliseconds per day. -/
def dayLen : Int := 86400000

/-- Days since 1970-01-01 of a proleptic-Gregorian civil date (the
standard days-from-civil computation; `/` on `Int` with a positive
divisor is floor division). -/
def daysFromCivil (y m d : Int) : Int :=
  let yAdj := if m ≤ 2 then y - 1 else y
  let era := yAdj / 400
  let yoe := yAdj - era * 400
  let doy := (153 * (if 2 < m then m - 3 else m + 9) + 2) / 5 + d - 1
  let doe := yoe * 365 + yoe / 4 - yoe / 100 + doy
  era * 146097 + doe - 719468

/-- Day number of a calendar date. -/
def daysOfDate (d : CalDate) : Int := daysFromCivil d.year d.month d.day

/-- `parseISO` of a `yyyy-MM-dd` string: the local midnight instant of
that calendar day. -/
def dateInstant (d : CalDate) : Int := daysOfDate d * dayLen

/-- The local calendar day containing an instant. -/
def dayOfInstant (x : Int) : Int := x / dayLen

/-- The value of `new Date()` at render time: calendar date `nd` at
time-of-day offset `t` milliseconds past local midnight. -/
def nowInstant (nd : CalDate) (t : Int) : Int := dateInstant nd + t

/-- date-fns `isSameDay`: both instants lie in the same local calendar
day. -/
def isSameDay (a b : Int) : Bool := dayOfInstant a == dayOfInstant b

/-- date-fns `addDays`: shift an instant by whole days, keeping the time
of day. -/
def addDays (x n : Int) : Int := x + n * dayLen

/-- date-fns `addWeeks`. -/
def addWeeks (x n : Int) : Int := x + n * (7 * dayLen)

/-- date-fns `isAfter a b`: `a` is strictly later than `b`. -/
def isAfter (a b : Int) : Bool := decide (b < a)

/-- JS `Date.prototype.getDay` of the local day containing an instant
(0 = Sunday; day 0 of the epoch, 1970-01-01, was a Thursday). -/
def dayOfWeek (x : Int) : Int := (dayOfInstant x + 4) % 7

/-- date-fns `startOfWeek` with the default Sunday week start: local
midnight of the Sunday of the week containing the instant. -/
def startOfWeek (x : Int) : Int := (dayOfInstant x - dayOfWeek x) * dayLen

/-- date-fns `endOfWeek` (Sunday week start): the last millisecond of the
Saturday of the week containing the instant. -/
def endOfWeek (x : Int) : Int := startOfWeek x + 7 * dayLen - 1

/-- date-fns `isWithinInterval` with an inclusive interval. -/
def isWithinInterval (x lo hi : Int) : Bool := decide (lo ≤ x) && decide (x ≤ hi)

/-- `format d "MMM"` followed by `toUpperCase()`: the three-letter
English month label; depends only on the month component. -/
def monthLabel (m : Int) : String :=
  if m = 1 then "JAN" else if m = 2 then "FEB" else if m = 3 then "MAR"
  else if m = 4 then "APR" else if m = 5 then "MAY" else if m = 6 then "JUN"
  else if m = 7 then "JUL" else if m = 8 then "AUG" else if m = 9 then "SEP"
  else if m = 10 then "OCT" else if m = 11 then "NOV"
  else if m = 12 then "DEC" else ""

/-- Sort key of the merge stage: `new Date(e.event_date).getTime()`. -/
def sortKey (e : EvalEvent) : Int := dateInstant e.event_date

/-- The comparator `(a, b) => sortKey a - sortKey b` of `Array.sort`,
as the total preorder it induces. -/
def evalLE (a b : EvalEvent) : Prop := sortKey a ≤ sortKey b

instance instDecEvalLE : DecidableRel evalLE := fun a b => Int.decLe (sortKey a) (sortKey b)

instance instTotalEvalLE : IsTotal EvalEvent evalLE := ⟨fun a b => Int.le_total (sortKey a) (sortKey b)⟩

instance instTransEvalLE : IsTrans EvalEvent evalLE := ⟨fun _ _ _ h1 h2 => le_trans h1 h2⟩

/-- The merge-and-sort stage (`allEvals` in `page.tsx`):
`[...masterEvals, ...personalEvals].sort(byDate)`.  JS `Array.sort` is
stable, so it is modelled by a stable insertion sort of the
concatenation. -/
def allEvals (master personal : List EvalEvent) : List EvalEvent :=
  List.insertionSort evalLE (master ++ personal)

/-- Filter predicate of the `Today` bucket. -/
def todayKeep (now : Int) (e : EvalEvent) : Bool :=
  isSameDay (dateInstant e.event_date) now

/-- `todayEvals` in `page.tsx`. -/
def todayEvals (l : List EvalEvent) (now : Int) : List EvalEvent :=
  l.filter (todayKeep now)

/-- Filter predicate of the `Tomorrow` bucket. -/
def tomorrowKeep (now : Int) (e : EvalEvent) : Bool :=
  isSameDay (dateInstant e.event_date) (addDays now 1)

/-- `tomorrowEvals` in `page.tsx`. -/
def tomorrowEvals (l : List EvalEvent) (now : Int) : List EvalEvent :=
  l.filter (tomorrowKeep now)

/-- Filter predicate of the `Upcoming` bucket:
`isAfter(date, tomorrow) && isAfter(addDays(today, 14), date)`. -/
def upcomingKeep (now : Int) (e : EvalEvent) : Bool :=
  isAfter (dateInstant e.event_date) (addDays now 1) &&
    isAfter (addDays now 14) (dateInstant e.event_date)

/-- `upcomingEvals` in `page.tsx`. -/
def upcomingEvals (l : List EvalEvent) (now : Int) : List EvalEvent :=
  l.filter (upcomingKeep now)

/-- Filter predicate of the weekly bucket for a given week offset:
membership of the event's parsed date in
`[addWeeks(startOfWeek(today), offset), endOfWeek(thereof)]`. -/
def weeklyKeep (now weekOffset : Int) (e : EvalEvent) : Bool :=
  isWithinInterval (dateInstant e.event_date)
    (addWeeks (startOfWeek now) weekOffset)
    (endOfWeek (addWeeks (startOfWeek now) weekOffset))

/-- `weeklyEvals` in `page.tsx`. -/
def weeklyEvals (l : List EvalEvent) (now weekOffset : Int) : List EvalEvent :=
  l.filter (weeklyKeep now weekOffset)

/-- Filter predicate of the monthly bucket:
`format(parseISO(e.event_date), "MMM").toUpperCase() === selectedMonth`. -/
def monthlyKeep (selectedMonth : String) (e : EvalEvent) : Bool :=
  monthLabel e.event_date.month == selectedMonth

/-- `monthlyEvals` in `page.tsx`. -/
def monthlyEvals (l : List EvalEvent) (selectedMonth : String) : List EvalEvent :=
  l.filter (monthlyKeep selectedMonth)

/-- `monthTabs` in `page.tsx`: the five selectable month labels. -/
def monthTabs : List String := ["JAN", "FEB", "MAR", "APR", "MAY"]

/-- Initial value of the `selectedMonth` state:
`format(new Date(), "MMM").toUpperCase()` for the load date. -/
def initialSelectedMonth (nowDate : CalDate) : String := monthLabel nowDate.month

/-- JSON string escaping as performed by `JSON.stringify` on the
characters this app can produce (backslash and double quote). -/
def jsonEscape (s : String) : String :=
  String.join (s.toList.map (fun c =>
    if c = '\\' then "\\\\" else if c = '"' then "\\\"" else String.singleton c))

/-- Zero-pad the decimal rendering of `n` to width `w`. -/
def padWidth (w : Nat) (n : Int) : String :=
  let s := toString n
  if s.length < w then String.mk (List.replicate (w - s.length) '0') ++ s else s

/-- `format d "yyyy-MM-dd"`. -/
def formatISO (d : CalDate) : String :=
  padWidth 4 d.year ++ "-" ++ padWidth 2 d.month ++ "-" ++ padWidth 2 d.day

/-- The literal name of an event category, as serialized. -/
def typeName : EvalType → String
  | .Quiz => "Quiz"
  | .Midsem => "Midsem"
  | .Lab => "Lab"
  | .Deadline => "Deadline"
  | .Compre => "Compre"
  | .Personal => "Personal"

/-- `JSON.stringify` of one `EvalEvent`, fields in the insertion order of
the object literal in `addPersonalEval`. -/
def jsonOfEvalEvent (e : EvalEvent) : String :=
  "\x7b\"id\":" ++
    (match e.id with
      | Sum.inl n => toString n
      | Sum.inr s => "\"" ++ jsonEscape s ++ "\"") ++
  ",\"title\":\"" ++ jsonEscape e.title ++ "\"" ++
  ",\"event_date\":\"" ++ formatISO e.event_date ++ "\"" ++
  (match e.time_range with
    | none => ""
    | some t => ",\"time_range\":\"" ++ jsonEscape t ++ "\"") ++
  ",\"type\":\"" ++ typeName e.type ++ "\"" ++
  (match e.isPersonal with
    | none => ""
    | some b => ",\"isPersonal\":" ++ (if b then "true" else "false")) ++
  (match e.description with
    | none => ""
    | some d => ",\"description\":\"" ++ jsonEscape d ++ "\"") ++
  "\x7d"

/-- `JSON.stringify` of a personal-event array, the exact content written
to the `personalEvals` localStorage slot. -/
def stringifyEvals (l : List EvalEvent) : String :=
  "[" ++ String.intercalate "," (l.map jsonOfEvalEvent) ++ "]"

/-- The component state touched by the personal-task actions, together
with the `personalEvals` localStorage slot (`none` = slot absent). -/
structure AppState where
  personalEvals : List EvalEvent
  storage : Option String
  newEventTitle : String
  newEventTime : String
  isFormOpen : Bool
deriving DecidableEq, Repr

/-- `addPersonalEval` from `page.tsx`.  `nowMs` is `Date.now()` and
`nowDate` the calendar date of `new Date()`.  An empty title is falsy,
so the handler returns without touching any state; otherwise it appends
the new event, overwrites the store with the serialized updated list,
clears the form fields and closes the form. -/
def addPersonalEval (nowMs : Int) (nowDate : CalDate) (s : AppState) : AppState :=
  if s.newEventTitle = "" then s
  else
    let newEval : EvalEvent :=
      { id := Sum.inl nowMs
        title := s.newEventTitle
        event_date := nowDate
        time_range := some (if s.newEventTime = "" then "All Day" else s.newEventTime)
        type := .Personal
        isPersonal := some true
        description := some "Personal Task" }
    let updated := s.personalEvals ++ [newEval]
    { s with
        personalEvals := updated
        storage := some (stringifyEvals updated)
        newEventTitle := ""
        newEventTime := ""
        isFormOpen := false }

/-- `deletePersonalEval` from `page.tsx`: keep the events whose id
differs from the given one (JS `!==` on a `string | number` union is
exactly inequality in `Int ⊕ String`), then overwrite the store with the
serialized result. -/
def deletePersonalEval (targetId : Int ⊕ String) (s : AppState) : AppState :=
  let updated := s.personalEvals.filter (fun e => decide (e.id ≠ targetId))
  { s with
      personalEvals := updated
      storage := some (stringifyEvals updated) }

/-- The startup fetch of `fetchData` in `page.tsx`: the Supabase query
`.gte("event_date", format(new Date(), "yyyy-MM-dd")).order("event_date")`,
modelled as the external store honouring the requested filter (ISO-string
comparison on `yyyy-MM-dd` strings is chronological order) and the
requested ascending order. -/
def fetchMaster (table : List EvalEvent) (nowDate : CalDate) : List EvalEvent :=
  List.insertionSort evalLE
    (table.filter (fun e => decide (daysOfDate nowDate ≤ daysOfDate e.event_date)))

/-- The localStorage read of `fetchData`: `stored` is the decoded content
of the `personalEvals` slot; an absent slot yields the empty list. -/
def loadedPersonal (stored : Option (List EvalEvent)) : List EvalEvent :=
  stored.getD []

/-- The merged sequence a session computes right after load: remote rows
through the filtered fetch, personal rows from the persisted slot. -/
def sessionAllEvals (table : List EvalEvent) (stored : Option (List EvalEvent))
    (nowDate : CalDate) : List EvalEvent :=
  allEvals (fetchMaster table nowDate) (loadedPersonal stored)

/-- A remote event with a given date, used as a concrete test vector. -/
def sampleEvent (d : CalDate) : EvalEvent :=
  { id := Sum.inl 1
    title := "sample"
    event_date := d
    time_range := none
    description := none
    type := .Quiz
    isPersonal := none }

/-- A persisted personal task with a given date, used as a concrete test
vector: the shape `addPersonalEval` writes to the store. -/
def storedPersonalSample (d : CalDate) : EvalEvent :=
  { id := Sum.inl 1700000000000
    title := "old task"
    event_date := d
    time_range := some "All Day"
    description := some "Personal Task"
    type := .Personal
    isPersonal := some true }

lemma todayKeep_iff (nd : CalDate) (t : Int) (h0 : 0 ≤ t) (h1 : t < dayLen) (e : EvalEvent) :
    todayKeep (nowInstant nd t) e = true ↔ daysOfDate e.event_date = daysOfDate nd := by
  have hd : dayLen = 86400000 := rfl
  simp only [todayKeep, isSameDay, dayOfInstant, nowInstant, dateInstant, beq_iff_eq, hd] at h1 ⊢
  omega

lemma tomorrowKeep_iff (nd : CalDate) (t : Int) (h0 : 0 ≤ t) (h1 : t < dayLen) (e : EvalEvent) :
    tomorrowKeep (nowInstant nd t) e = true ↔ daysOfDate e.event_date = daysOfDate nd + 1 := by
  have hd : dayLen = 86400000 := rfl
  simp only [tomorrowKeep, isSameDay, addDays, dayOfInstant, nowInstant, dateInstant,
    beq_iff_eq, hd] at h1 ⊢
  omega

lemma upcomingKeep_iff (nd : CalDate) (t : Int) (h0 : 0 ≤ t) (h1 : t < dayLen) (e : EvalEvent) :
    upcomingKeep (nowInstant nd t) e = true ↔
      (daysOfDate nd + 2 ≤ daysOfDate e.event_date ∧
          daysOfDate e.event_date ≤ daysOfDate nd + 13) ∨
        (daysOfDate e.event_date = daysOfDate nd + 14 ∧ 0 < t) := by
  have hd : dayLen = 86400000 := rfl
  simp only [upcomingKeep, isAfter, addDays, nowInstant, dateInstant, Bool.and_eq_true,
    decide_eq_true_eq, hd] at h1 ⊢
  omega

/-- C1 (counterexample): with reference instant 1 ms past midnight of
2024-03-10, an event dated exactly reference + 14 days (2024-03-24) is a
member of the Upcoming bucket, contradicting the claimed strict upper
boundary. -/
theorem upcoming_day14_included_counterexample :
    daysOfDate ⟨2024, 3, 24⟩ = daysOfDate ⟨2024, 3, 10⟩ + 14 ∧
      sampleEvent ⟨2024, 3, 24⟩ ∈
        upcomingEvals [sampleEvent ⟨2024, 3, 24⟩] (nowInstant ⟨2024, 3, 10⟩ 1) := by
  decide

/-- C1 (amended): with reference date `nd` and time of day `t`, the
Upcoming bucket contains exactly the events of the list whose date lies
in `[nd + 2, nd + 13]`, together with the events dated exactly `nd + 14`
whenever `t` is strictly past midnight; events dated `nd + 1` (Tomorrow)
are never included. -/
theorem upcoming_window_amended (l : List EvalEvent) (nd : CalDate) (t : Int) (e : EvalEvent)
    (h0 : 0 ≤ t) (h1 : t < dayLen) :
    e ∈ upcomingEvals l (nowInstant nd t) ↔
      e ∈ l ∧
        ((daysOfDate nd + 2 ≤ daysOfDate e.event_date ∧
            daysOfDate e.event_date ≤ daysOfDate nd + 13) ∨
          (daysOfDate e.event_date = daysOfDate nd + 14 ∧ 0 < t)) := by
  rw [upcomingEvals, List.mem_filter, upcomingKeep_iff nd t h0 h1 e]

/-- C1 (witness): the amended window instantiated at reference date
2024-03-10 with `t = 1`: an event dated 2024-03-23 (reference + 13) is
in the bucket. -/
theorem upcoming_window_amended_witness :
    sampleEvent ⟨2024, 3, 23⟩ ∈
      upcomingEvals [sampleEvent ⟨2024, 3, 23⟩] (nowInstant ⟨2024, 3, 10⟩ 1) :=
  (upcoming_window_amended [sampleEvent ⟨2024, 3, 23⟩] ⟨2024, 3, 10⟩ 1
      (sampleEvent ⟨2024, 3, 23⟩) (by decide) (by decide)).mpr
    ⟨by decide, Or.inl ⟨by decide, by decide⟩⟩

/-- C2: for any reference instant, no event is a member of two of the
three Daily buckets: Today, Tomorrow and Upcoming are mutually
exclusive. -/
theorem daily_buckets_mutually_exclusive (l : List EvalEvent) (now : Int) (e : EvalEvent) :
    (¬ (e ∈ todayEvals l now ∧ e ∈ tomorrowEvals l now)) ∧
      (¬ (e ∈ todayEvals l now ∧ e ∈ upcomingEvals l now)) ∧
      (¬ (e ∈ tomorrowEvals l now ∧ e ∈ upcomingEvals l now)) := by
  have hd : dayLen = 86400000 := rfl
  simp only [todayEvals, tomorrowEvals, upcomingEvals, List.mem_filter, todayKeep,
    tomorrowKeep, upcomingKeep, isSameDay, isAfter, addDays, dayOfInstant, dateInstant,
    beq_iff_eq, Bool.and_eq_true, decide_eq_true_eq, hd]
  omega

/-- C2 (witness): the exclusivity instantiated at a concrete list,
reference instant and event. -/
theorem daily_buckets_mutually_exclusive_witness :
    (¬ (sampleEvent ⟨2024, 3, 10⟩ ∈
          todayEvals [sampleEvent ⟨2024, 3, 10⟩] (nowInstant ⟨2024, 3, 10⟩ 1) ∧
        sampleEvent ⟨2024, 3, 10⟩ ∈
          tomorrowEvals [sampleEvent ⟨2024, 3, 10⟩] (nowInstant ⟨2024, 3, 10⟩ 1))) ∧
      (¬ (sampleEvent ⟨2024, 3, 10⟩ ∈
            todayEvals [sampleEvent ⟨2024, 3, 10⟩] (nowInstant ⟨2024, 3, 10⟩ 1) ∧
          sampleEvent ⟨2024, 3, 10⟩ ∈
            upcomingEvals [sampleEvent ⟨2024, 3, 10⟩] (nowInstant ⟨2024, 3, 10⟩ 1))) ∧
      (¬ (sampleEvent ⟨2024, 3, 10⟩ ∈
            tomorrowEvals [sampleEvent ⟨2024, 3, 10⟩] (nowInstant ⟨2024, 3, 10⟩ 1) ∧
          sampleEvent ⟨2024, 3, 10⟩ ∈
            upcomingEvals [sampleEvent ⟨2024, 3, 10⟩] (nowInstant ⟨2024, 3, 10⟩ 1))) :=
  daily_buckets_mutually_exclusive [sampleEvent ⟨2024, 3, 10⟩]
    (nowInstant ⟨2024, 3, 10⟩ 1) (sampleEvent ⟨2024, 3, 10⟩)

lemma filter_key_orderedInsert (k : Int) (x : EvalEvent) (s : List EvalEvent) :
    (List.orderedInsert evalLE x s).filter (fun e => decide (sortKey e = k)) =
      if sortKey x = k then x :: s.filter (fun e => decide (sortKey e = k))
      else s.filter (fun e => decide (sortKey e = k)) := by
  induction s with
  | nil =>
    simp only [List.orderedInsert, List.filter]
    by_cases hx : sortKey x = k <;> simp [hx]
  | cons y ys ih =>
    by_cases hxy : evalLE x y
    · simp only [List.orderedInsert, if_pos hxy, List.filter_cons]
      by_cases hx : sortKey x = k <;> by_cases hy : sortKey y = k <;> simp [hx, hy]
    · simp only [List.orderedInsert, if_neg hxy, List.filter_cons]
      by_cases hx : sortKey x = k <;> by_cases hy : sortKey y = k
      · exact absurd (le_of_eq (hx.trans hy.symm)) hxy
      · simp [hx, hy, ih]
      · simp [hx, hy, ih]
      · simp [hx, hy, ih]

lemma filter_key_insertionSort (k : Int) (l : List EvalEvent) :
    (List.insertionSort evalLE l).filter (fun e => decide (sortKey e = k)) =
      l.filter (fun e => decide (sortKey e = k)) := by
  induction l with
  | nil => rfl
  | cons x xs ih =>
    simp only [List.insertionSort]
    rw [filter_key_orderedInsert, List.filter_cons]
    by_cases hx : sortKey x = k <;> simp [hx, ih]

/-- C3: the merge-and-sort stage is a permutation of the remote sequence
followed by the personal sequence, is sorted ascending by event date, and
is stable: for every date key, the events carrying that key appear in
exactly the order of the concatenation (remote ones first).  In
particular a remote and a personal event with equal dates appear with the
remote one first. -/
theorem allEvals_merge_sort_contract (master personal : List EvalEvent) :
    (allEvals master personal).Perm (master ++ personal) ∧
      (allEvals master personal).Sorted evalLE ∧
      ∀ k : Int,
        (allEvals master personal).filter (fun e => decide (sortKey e = k)) =
          (master ++ personal).filter (fun e => decide (sortKey e = k)) :=
  ⟨List.perm_insertionSort evalLE (master ++ personal),
    List.sorted_insertionSort evalLE (master ++ personal),
    fun k => filter_key_insertionSort k (master ++ personal)⟩

/-- Local day number of the week start the weekly bucket uses for the
week containing the given instant. -/
def weekStartDayOf (now : Int) : Int := dayOfInstant (startOfWeek now)

lemma weeklyKeep_iff (now : Int) (e : EvalEvent) :
    weeklyKeep now 0 e = true ↔
      (weekStartDayOf now ≤ daysOfDate e.event_date ∧
        daysOfDate e.event_date ≤ weekStartDayOf now + 6) := by
  have hd : dayLen = 86400000 := rfl
  simp only [weeklyKeep, weekStartDayOf, isWithinInterval, addWeeks, startOfWeek, endOfWeek,
    dayOfWeek, dayOfInstant, dateInstant, Bool.and_eq_true, decide_eq_true_eq, hd]
  omega

/-- C4: in Weekly mode with offset 0, the bucket contains exactly the
events of the list whose date falls within the inclusive interval of the
week containing the reference instant: every event dated between the
week-start day and week-start + 6 (the day of `endOfWeek`) is in the
bucket, and no other event is.  In particular an event dated exactly on
the week-start boundary is included, and an event dated one day before
the week start is excluded. -/
theorem weekly_offset0_window (l : List EvalEvent) (now : Int) (e : EvalEvent) :
    e ∈ weeklyEvals l now 0 ↔
      e ∈ l ∧ weekStartDayOf now ≤ daysOfDate e.event_date ∧
        daysOfDate e.event_date ≤ weekStartDayOf now + 6 := by
  rw [weeklyEvals, List.mem_filter, weeklyKeep_iff]

/-- C5: monthly bucketing keys on the three-letter month label alone, so
with label `monthLabel M` selected, an event of year `Y` month `M` and an
event of year `Y + 1` month `M` are both in the bucket. -/
theorem monthly_year_agnostic (l : List EvalEvent) (e1 e2 : EvalEvent) (Y M d1 d2 : Int)
    (he1 : e1 ∈ l) (he2 : e2 ∈ l)
    (hd1 : e1.event_date = ⟨Y, M, d1⟩) (hd2 : e2.event_date = ⟨Y + 1, M, d2⟩) :
    e1 ∈ monthlyEvals l (monthLabel M) ∧ e2 ∈ monthlyEvals l (monthLabel M) := by
  constructor <;> rw [monthlyEvals, List.mem_filter]
  · exact ⟨he1, by simp [monthlyKeep, hd1]⟩
  · exact ⟨he2, by simp [monthlyKeep, hd2]⟩

/-- C5 (witness): with the APR label selected, an April 2024 event and an
April 2025 event are both in the monthly bucket. -/
theorem monthly_year_agnostic_witness :
    sampleEvent ⟨2024, 4, 1⟩ ∈
        monthlyEvals [sampleEvent ⟨2024, 4, 1⟩, sampleEvent ⟨2025, 4, 2⟩] (monthLabel 4) ∧
      sampleEvent ⟨2025, 4, 2⟩ ∈
        monthlyEvals [sampleEvent ⟨2024, 4, 1⟩, sampleEvent ⟨2025, 4, 2⟩] (monthLabel 4) :=
  monthly_year_agnostic [sampleEvent ⟨2024, 4, 1⟩, sampleEvent ⟨2025, 4, 2⟩]
    (sampleEvent ⟨2024, 4, 1⟩) (sampleEvent ⟨2025, 4, 2⟩) 2024 4 1 2
    (by decide) (by decide) rfl rfl

/-- C6: with an empty title, `addPersonalEval` is a silent no-op: the
whole state, in particular the personal list and the persisted store
slot, is returned unchanged and no error is surfaced. -/
theorem addPersonalEval_empty_title_noop (nowMs : Int) (nowDate : CalDate) (s : AppState)
    (h : s.newEventTitle = "") : addPersonalEval nowMs nowDate s = s := by
  simp [addPersonalEval, h]

/-- C6 (witness): the no-op instantiated at a concrete state with one
stored personal task and an empty title field. -/
theorem addPersonalEval_empty_title_noop_witness :
    addPersonalEval 5 ⟨2024, 3, 10⟩
        ⟨[storedPersonalSample ⟨2024, 3, 9⟩], some "x", "", "2 PM", true⟩ =
      ⟨[storedPersonalSample ⟨2024, 3, 9⟩], some "x", "", "2 PM", true⟩ :=
  addPersonalEval_empty_title_noop 5 ⟨2024, 3, 10⟩
    ⟨[storedPersonalSample ⟨2024, 3, 9⟩], some "x", "", "2 PM", true⟩ rfl

lemma filter_ne_id_eq_self {l : List EvalEvent} {targetId : Int ⊕ String}
    (h : targetId ∉ l.map EvalEvent.id) :
    l.filter (fun e => decide (e.id ≠ targetId)) = l := by
  rw [List.filter_eq_self]
  intro a ha
  simp only [decide_eq_true_eq]
  intro hEq
  exact h (hEq ▸ List.mem_map_of_mem EvalEvent.id ha)

/-- C7: `deletePersonalEval` keeps exactly the personal events whose id
differs from the given one and overwrites the store with the serialized
result; when the id is absent from the personal list and the store holds
the serialized personal list (the invariant every create/delete
re-establishes), the whole state is unchanged. -/
theorem deletePersonalEval_contract (targetId : Int ⊕ String) (s : AppState)
    (hsync : s.storage = some (stringifyEvals s.personalEvals)) :
    (deletePersonalEval targetId s).personalEvals =
        s.personalEvals.filter (fun e => decide (e.id ≠ targetId)) ∧
      (deletePersonalEval targetId s).storage =
        some (stringifyEvals ((deletePersonalEval targetId s).personalEvals)) ∧
      (targetId ∉ s.personalEvals.map EvalEvent.id → deletePersonalEval targetId s = s) := by
  refine ⟨rfl, rfl, fun habsent => ?_⟩
  obtain ⟨pe, st, t1, t2, f⟩ := s
  simp only [deletePersonalEval, filter_ne_id_eq_self habsent] at hsync ⊢
  rw [hsync]

/-- C7 (witness): deleting an id that is not in the personal list leaves
a concrete in-sync state unchanged. -/
theorem deletePersonalEval_contract_witness :
    deletePersonalEval (Sum.inl 42)
        ⟨[storedPersonalSample ⟨2024, 3, 9⟩],
          some (stringifyEvals [storedPersonalSample ⟨2024, 3, 9⟩]), "", "", false⟩ =
      ⟨[storedPersonalSample ⟨2024, 3, 9⟩],
        some (stringifyEvals [storedPersonalSample ⟨2024, 3, 9⟩]), "", "", false⟩ :=
  (deletePersonalEval_contract (Sum.inl 42)
      ⟨[storedPersonalSample ⟨2024, 3, 9⟩],
        some (stringifyEvals [storedPersonalSample ⟨2024, 3, 9⟩]), "", "", false⟩
      rfl).2.2 (by simp [storedPersonalSample])

/-- C8: creating a personal task (non-empty title) and then deleting it
by its assigned id (`Date.now()`, fresh by the id-uniqueness invariant)
returns both the personal list and the persisted store slot to their
exact prior content. -/
theorem create_then_delete_restores_store (nowMs : Int) (nowDate : CalDate) (s : AppState)
    (htitle : s.newEventTitle ≠ "")
    (hfresh : (Sum.inl nowMs : Int ⊕ String) ∉ s.personalEvals.map EvalEvent.id)
    (hsync : s.storage = some (stringifyEvals s.personalEvals)) :
    (deletePersonalEval (Sum.inl nowMs) (addPersonalEval nowMs nowDate s)).personalEvals =
        s.personalEvals ∧
      (deletePersonalEval (Sum.inl nowMs) (addPersonalEval nowMs nowDate s)).storage =
        s.storage := by
  have hlist :
      (deletePersonalEval (Sum.inl nowMs) (addPersonalEval nowMs nowDate s)).personalEvals =
        s.personalEvals := by
    simp only [addPersonalEval, if_neg htitle, deletePersonalEval, List.filter_append,
      filter_ne_id_eq_self hfresh]
    simp
  refine ⟨hlist, ?_⟩
  have hstore :
      (deletePersonalEval (Sum.inl nowMs) (addPersonalEval nowMs nowDate s)).storage =
        some (stringifyEvals
          ((deletePersonalEval (Sum.inl nowMs) (addPersonalEval nowMs nowDate s)).personalEvals)) :=
    rfl
  rw [hstore, hlist, hsync]

/-- C8 (witness): create-then-delete on a concrete in-sync state with one
pre-existing personal task and a non-empty title restores the list and
the serialized store. -/
theorem create_then_delete_restores_store_witness :
    (deletePersonalEval (Sum.inl 1700000099999)
          (addPersonalEval 1700000099999 ⟨2024, 3, 10⟩
            ⟨[storedPersonalSample ⟨2024, 3, 9⟩],
              some (stringifyEvals [storedPersonalSample ⟨2024, 3, 9⟩]),
              "new task", "", true⟩)).personalEvals =
        [storedPersonalSample ⟨2024, 3, 9⟩] ∧
      (deletePersonalEval (Sum.inl 1700000099999)
          (addPersonalEval 1700000099999 ⟨2024, 3, 10⟩
            ⟨[storedPersonalSample ⟨2024, 3, 9⟩],
              some (stringifyEvals [storedPersonalSample ⟨2024, 3, 9⟩]),
              "new task", "", true⟩)).storage =
        some (stringifyEvals [storedPersonalSample ⟨2024, 3, 9⟩]) :=
  create_then_delete_restores_store 1700000099999 ⟨2024, 3, 10⟩
    ⟨[storedPersonalSample ⟨2024, 3, 9⟩],
      some (stringifyEvals [storedPersonalSample ⟨2024, 3, 9⟩]), "new task", "", true⟩
    (by decide) (by simp [storedPersonalSample]) rfl

/-- C9 (counterexample): a personal task persisted by a previous session
and dated 2024-03-09 enters the merged sequence of a session that loads
on 2024-03-10, even though its date is strictly in the past. -/
theorem past_personal_event_enters_merged :
    storedPersonalSample ⟨2024, 3, 9⟩ ∈
        sessionAllEvals [] (some [storedPersonalSample ⟨2024, 3, 9⟩]) ⟨2024, 3, 10⟩ ∧
      daysOfDate (storedPersonalSample ⟨2024, 3, 9⟩).event_date <
        daysOfDate ⟨2024, 3, 10⟩ := by
  decide

/-- C9 (amended): every event of the merged sequence either came from the
persisted personal list or is dated at or after the load date — the
remote query's lower bound keeps past remote events out, but persisted
personal events are not date-filtered. -/
theorem merged_event_past_only_if_personal (table : List EvalEvent)
    (stored : Option (List EvalEvent)) (nowDate : CalDate) (e : EvalEvent)
    (he : e ∈ sessionAllEvals table stored nowDate) :
    e ∈ loadedPersonal stored ∨ daysOfDate nowDate ≤ daysOfDate e.event_date := by
  rw [sessionAllEvals, allEvals, List.mem_insertionSort, List.mem_append] at he
  rcases he with hm | hp
  · right
    rw [fetchMaster, List.mem_insertionSort, List.mem_filter] at hm
    exact of_decide_eq_true hm.2
  · exact Or.inl hp

/-- C9 (amended, witness): a remote event dated on the load date is in
the merged sequence, and satisfies the disjunction through its date. -/
theorem merged_event_past_only_if_personal_witness :
    sampleEvent ⟨2024, 3, 10⟩ ∈ loadedPersonal none ∨
      daysOfDate (⟨2024, 3, 10⟩ : CalDate) ≤
        daysOfDate (sampleEvent ⟨2024, 3, 10⟩).event_date :=
  merged_event_past_only_if_personal [sampleEvent ⟨2024, 3, 10⟩] none ⟨2024, 3, 10⟩
    (sampleEvent ⟨2024, 3, 10⟩) (by decide)

lemma monthLabel_eq_oct_iff (m : Int) (h1 : 1 ≤ m) (h2 : m ≤ 12) :
    monthLabel m = "OCT" ↔ m = 10 := by
  interval_cases m <;> decide

/-- C10: when the load date falls in October, the initial `selectedMonth`
is the out-of-set label OCT: the monthly bucket then contains exactly the
events dated in month 10 (of any year), and OCT is not one of the five
selectable tabs, so the label cannot be re-selected after navigating
away. -/
theorem initial_month_label_out_of_tabs (l : List EvalEvent) (nowDate : CalDate)
    (hm : nowDate.month = 10)
    (hvalid : ∀ e ∈ l, 1 ≤ e.event_date.month ∧ e.event_date.month ≤ 12) :
    initialSelectedMonth nowDate = "OCT" ∧
      initialSelectedMonth nowDate ∉ monthTabs ∧
      ∀ e, e ∈ monthlyEvals l (initialSelectedMonth nowDate) ↔
        e ∈ l ∧ e.event_date.month = 10 := by
  have hlab : initialSelectedMonth nowDate = "OCT" := by
    rw [initialSelectedMonth, hm]
    rfl
  refine ⟨hlab, ?_, ?_⟩
  · rw [hlab]
    decide
  · intro e
    rw [hlab, monthlyEvals, List.mem_filter]
    constructor
    · rintro ⟨hel, hk⟩
      have hb := hvalid e hel
      rw [monthlyKeep, beq_iff_eq] at hk
      exact ⟨hel, (monthLabel_eq_oct_iff _ hb.1 hb.2).mp hk⟩
    · rintro ⟨hel, h10⟩
      refine ⟨hel, ?_⟩
      simp only [monthlyKeep, h10]
      decide

/-- C10 (witness): load date 2024-10-05 with one event dated 2024-10-20:
the initial label is OCT, OCT is not a tab, and the bucket keyed on the
initial label holds exactly the October-dated events. -/
theorem initial_month_label_out_of_tabs_witness :
    initialSelectedMonth ⟨2024, 10, 5⟩ = "OCT" ∧
      initialSelectedMonth ⟨2024, 10, 5⟩ ∉ monthTabs ∧
      ∀ e, e ∈ monthlyEvals [sampleEvent ⟨2024, 10, 20⟩]
            (initialSelectedMonth ⟨2024, 10, 5⟩) ↔
        e ∈ [sampleEvent ⟨2024, 10, 20⟩] ∧ e.event_date.month = 10 :=
  initial_month_label_out_of_tabs [sampleEvent ⟨2024, 10, 20⟩] ⟨2024, 10, 5⟩ rfl
    (by decide)
